import Mathlib

/-!
Verification of the gw-awards repository: a shallow embedding of the
fetch-and-enrich pipeline (`src/get-data.py`) and the flatten-and-aggregate
pipeline (`src/app.py`), together with theorems settling the specification
claims about them.

Conventions of the embedding:
* Python dicts (which preserve insertion order) become association lists
  `List (key × value)`; iteration over `.values()` is iteration over the
  second components in stored order.
* pandas DataFrames become `List FlatRecord`; `drop_duplicates(subset=ks)`
  keeps the first row per key (`dropDuplicatesBy`); `groupby(ks).agg(count)`
  with the default `sort=True, dropna=True` drops rows whose key contains a
  null, emits one row per distinct key in ascending key order, and counts
  group sizes (`groupbyCount`); `sort_values` is modelled as a stable sort
  (`List.insertionSort`).
* Machine floats (summit latitude/longitude) are inert payload that the
  program never computes with; they are carried as `Int` so that every
  definition stays executable and decidable.
* Network calls become oracle functions returning `Except String α`; the
  `try/except` in `get-data.py` becomes an explicit match on the result.
-/

/-! ### Python-style string order and helpers -/

/-- Lexicographic comparison of character lists by code point, as Python
compares strings.  Used to model the ascending key order of pandas
`groupby(sort=True)` on string-valued keys. -/
def charListLt : List Char → List Char → Bool
  | [], [] => false
  | [], _ :: _ => true
  | _ :: _, [] => false
  | a :: as, b :: bs => a < b || (a = b && charListLt as bs)

/-- Strict lexicographic order on strings (by code points). -/
def strLt (a b : String) : Prop := charListLt a.data b.data = true

/-- Reflexive closure of `strLt`. -/
def strLe (a b : String) : Prop := strLt a b ∨ a = b

instance : DecidableRel strLt := fun a b =>
  inferInstanceAs (Decidable (charListLt a.data b.data = true))

instance : DecidableRel strLe := fun a b =>
  inferInstanceAs (Decidable (strLt a b ∨ a = b))

/-- Accumulating decimal-digit parser: `digitsValAux none cs` is the value of
the digit string `cs`, or `none` if `cs` is empty or contains a non-digit. -/
def digitsValAux : Option Nat → List Char → Option Nat
  | acc, [] => acc
  | acc, c :: cs =>
    if c.isDigit then digitsValAux (some ((acc.getD 0) * 10 + (c.toNat - 48))) cs
    else none

/-- Model of Python `int(s)` restricted to optionally-signed digit strings
(the only shapes fed to it by the programs: four-character date prefixes).
Python raises on other inputs; here that is `none`. -/
def pyInt? (s : String) : Option Int :=
  match s.data with
  | '-' :: cs => (digitsValAux none cs).map (fun n => -(n : Int))
  | cs => (digitsValAux none cs).map (fun n => (n : Int))

/-- Embeds `int(act["activationDate"][:4])` from `build_activation_dataframe`
in `src/app.py`: the year is the first four characters of the date,
interpreted as an integer.  Well-formed dates always parse; the `getD 0`
default is never reached on them. -/
def yearOf (date : String) : Int := (pyInt? (String.mk (date.data.take 4))).getD 0

/-- Python truthiness of an optional string: `None` and `""` are falsy. -/
def pyTruthy : Option String → Bool
  | none => false
  | some s => decide (s ≠ "")

/-- Embeds `s.split("/")[0]` from `src/get-data.py` line 107: the part of the
string before the first `/` (the whole string if there is no `/`). -/
def beforeSlash (s : String) : String :=
  String.mk (s.data.takeWhile (fun c => decide (c ≠ '/')))

/-! ### Data model (Snapshot document, `gw_sota_data.json`) -/

/-- A summit as stored in the snapshot: the fields of the remote summit
object that `src/app.py` reads. -/
structure Summit where
  summitCode : String
  name : String
  points : Int
  latitude : Int
  longitude : Int
  deriving DecidableEq, Repr

/-- An enriched activation as stored in the snapshot: the raw fields read by
the pipelines plus the `Callsign` field added by enrichment
(`src/get-data.py` lines 99-114). -/
structure Activation where
  userId : Option Nat
  ownCallsign : Option String
  activationDate : String
  Callsign : Option String
  deriving DecidableEq, Repr

/-- One entry of a region's `summits` dict: `{"summit": ..., "activations": [...]}`. -/
structure SummitEntry where
  summit : Summit
  activations : List Activation
  deriving DecidableEq, Repr

/-- The `region` object stored per region; `src/app.py` reads its `summits`
count (total summits of the region) for the percentage figures. -/
structure RegionInfo where
  summits : Int
  deriving DecidableEq, Repr

/-- One entry of the snapshot's `regions` dict:
`{"region": ..., "summits": {code: SummitEntry}}`. -/
structure RegionEntry where
  region : RegionInfo
  summits : List (String × SummitEntry)
  deriving DecidableEq, Repr

/-- The persisted snapshot document produced by `src/get-data.py` and
consumed by `src/app.py`. -/
structure Snapshot where
  generated_at : String
  association : String
  regions : List (String × RegionEntry)
  deriving DecidableEq, Repr

/-- One flattened activation row, as built by `build_activation_dataframe`
in `src/app.py` lines 24-47. -/
structure FlatRecord where
  userId : Option Nat
  Callsign : Option String
  activationDate : String
  year : Int
  summitCode : String
  summitName : String
  points : Int
  latitude : Int
  longitude : Int
  deriving DecidableEq, Repr

/-- The row built for one activation of one summit entry (the dict literal in
the inner loop of `build_activation_dataframe`). -/
def recordOf (se : SummitEntry) (act : Activation) : FlatRecord :=
  { userId := act.userId
    Callsign := act.Callsign
    activationDate := act.activationDate
    year := yearOf act.activationDate
    summitCode := se.summit.summitCode
    summitName := se.summit.name
    points := se.summit.points
    latitude := se.summit.latitude
    longitude := se.summit.longitude }

/-- Embeds `build_activation_dataframe` from `src/app.py` lines 24-47:
visit every region value, every summit entry value, every activation, in
stored order, and emit one flat row per activation. -/
def build_activation_dataframe (data : Snapshot) : List FlatRecord :=
  data.regions.flatMap (fun rp =>
    rp.2.summits.flatMap (fun sp =>
      sp.2.activations.map (recordOf sp.2)))

/-! ### pandas primitives -/

/-- Worker for `dropDuplicatesBy`: keep each element whose key has not been
seen before. -/
def dropDupsAux {α κ : Type} (key : α → κ) [DecidableEq κ] : List κ → List α → List α
  | _, [] => []
  | seen, x :: xs =>
    if key x ∈ seen then dropDupsAux key seen xs
    else x :: dropDupsAux key (key x :: seen) xs

/-- pandas `DataFrame.drop_duplicates(subset=...)` with the default
`keep="first"`: keep the first row bearing each key, in row order.  pandas
treats NaN keys as equal to each other, which `Option` equality mirrors. -/
def dropDuplicatesBy {α κ : Type} (key : α → κ) [DecidableEq κ] (l : List α) : List α :=
  dropDupsAux key [] l

/-- pandas `df.groupby(ks).agg(count)` / `.size()` with the defaults
`sort=True` and `dropna=True`: rows whose key tuple contains a null are
dropped (`key x = none`), one output row is produced per distinct key, in
ascending key order `r`, carrying the size of the group. -/
def groupbyCount {α κ : Type} (key : α → Option κ) (r : κ → κ → Prop)
    [DecidableRel r] [DecidableEq κ] (l : List α) : List (κ × Nat) :=
  (List.insertionSort r (dropDuplicatesBy id (l.filterMap key))).map
    (fun k => (k, l.countP (fun x => decide (key x = some k))))

/-! ### Aggregation pipeline (`src/app.py`) -/

/-- The `drop_duplicates(subset=["userId", "summitCode"])` key. -/
def usKey (r : FlatRecord) : Option Nat × String := (r.userId, r.summitCode)

/-- The `groupby(["userId", "Callsign"])` key; `none` when either column is
null (pandas drops such rows from the groupby). -/
def ucKey (r : FlatRecord) : Option (Nat × String) :=
  match r.userId, r.Callsign with
  | some u, some c => some (u, c)
  | _, _ => none

/-- The `drop_duplicates(subset=["userId", "summitCode", "year"])` key. -/
def usyKey (r : FlatRecord) : Option Nat × String × Int := (r.userId, r.summitCode, r.year)

/-- The `groupby(["year", "userId", "Callsign"])` key; `none` when userId or
Callsign is null. -/
def yucKey (r : FlatRecord) : Option (Int × Nat × String) :=
  match r.userId, r.Callsign with
  | some u, some c => some (r.year, u, c)
  | _, _ => none

/-- Ascending order of `(userId, Callsign)` group keys. -/
def ucLE (a b : Nat × String) : Prop := a.1 < b.1 ∨ (a.1 = b.1 ∧ strLe a.2 b.2)

/-- Strict version of `ucLE`. -/
def ucLT (a b : Nat × String) : Prop := a.1 < b.1 ∨ (a.1 = b.1 ∧ strLt a.2 b.2)

/-- Ascending order of `(year, userId, Callsign)` group keys. -/
def yucLE (a b : Int × Nat × String) : Prop := a.1 < b.1 ∨ (a.1 = b.1 ∧ ucLE a.2 b.2)

/-- Models `sort_values("summits", ascending=False)`: descending count. -/
def countGE (a b : (Nat × String) × Nat) : Prop := b.2 ≤ a.2

/-- Models `sort_values(["year", "summits"], ascending=[True, False])`:
year ascending, then count descending. -/
def ycLE (a b : (Int × Nat × String) × Nat) : Prop :=
  a.1.1 < b.1.1 ∨ (a.1.1 = b.1.1 ∧ b.2 ≤ a.2)

/-- Models `sort_values("year", ascending=False)` on winner rows. -/
def rowYearGE (a b : (Int × Nat × String) × Nat) : Prop := b.1.1 ≤ a.1.1

/-- Models `sort_values("year")` on yearly-total rows. -/
def totYearLE (a b : Int × Nat) : Prop := a.1 ≤ b.1

instance : DecidableRel ucLE := fun a b =>
  inferInstanceAs (Decidable (a.1 < b.1 ∨ (a.1 = b.1 ∧ strLe a.2 b.2)))

instance : DecidableRel ucLT := fun a b =>
  inferInstanceAs (Decidable (a.1 < b.1 ∨ (a.1 = b.1 ∧ strLt a.2 b.2)))

instance : DecidableRel yucLE := fun a b =>
  inferInstanceAs (Decidable (a.1 < b.1 ∨ (a.1 = b.1 ∧ ucLE a.2 b.2)))

instance : DecidableRel countGE := fun a b => inferInstanceAs (Decidable (b.2 ≤ a.2))

instance : DecidableRel ycLE := fun a b =>
  inferInstanceAs (Decidable (a.1.1 < b.1.1 ∨ (a.1.1 = b.1.1 ∧ b.2 ≤ a.2)))

instance : DecidableRel rowYearGE := fun a b => inferInstanceAs (Decidable (b.1.1 ≤ a.1.1))

instance : DecidableRel totYearLE := fun a b => inferInstanceAs (Decidable (a.1 ≤ b.1))

/-- Embeds `summary` from `src/app.py` lines 79-88: filter the flat records
to the selected year, drop duplicate `(userId, summitCode)` rows, group by
`(userId, Callsign)` counting rows, and sort by count descending. -/
def summary (rs : List FlatRecord) (y : Int) : List ((Nat × String) × Nat) :=
  List.insertionSort countGE
    (groupbyCount ucKey ucLE
      (dropDuplicatesBy usKey (rs.filter (fun r => decide (r.year = y)))))

/-- Embeds `historical` from `src/app.py` lines 200-208: drop duplicate
`(userId, summitCode, year)` rows across all years and group by
`(year, userId, Callsign)` counting rows. -/
def historical (rs : List FlatRecord) : List ((Int × Nat × String) × Nat) :=
  groupbyCount yucKey yucLE (dropDuplicatesBy usyKey rs)

/-- Embeds `winners` from `src/app.py` lines 210-216: sort `historical` by
year ascending / count descending, keep the first row of each year group
(`groupby("year").head(1)` keeps first rows in frame order), then sort by
year descending. -/
def winners (rs : List FlatRecord) : List ((Int × Nat × String) × Nat) :=
  List.insertionSort rowYearGE
    (dropDuplicatesBy (fun row => row.1.1) (List.insertionSort ycLE (historical rs)))

/-- Embeds `yearly_totals` from `src/app.py` lines 245-252: drop duplicate
`(userId, summitCode, year)` rows, count rows per year (`.size()` counts all
rows of the group, null columns included), and sort by year. -/
def yearly_totals (rs : List FlatRecord) : List (Int × Nat) :=
  List.insertionSort totYearLE
    (groupbyCount (fun r => some r.year) (fun a b : Int => a ≤ b)
      (dropDuplicatesBy usyKey rs))

/-- The figure a one-row-per-year table shows for year `y` (0 if the year is
absent; the tables produced here have at most one row per year). -/
def tableLookup (t : List (Int × Nat)) (y : Int) : Nat :=
  ((t.filter (fun e => decide (e.1 = y))).map Prod.snd).sum

/-! ### Fetch-and-enrich pipeline (`src/get-data.py`) -/

/-- One entry of the remote activator roll, as read by
`fetch_activator_roll` (`entry.get("UserID")`, `entry.get("Callsign")`). -/
structure RollEntry where
  UserID : Option Nat
  Callsign : Option String
  deriving DecidableEq, Repr

/-- Embeds `fetch_activator_roll` from `src/get-data.py` lines 26-42 applied
to already-fetched roll data: build a `UserID -> Callsign` mapping, skipping
entries with a missing id or a missing/empty callsign; later entries
overwrite earlier ones. -/
def fetch_activator_roll (data : List RollEntry) : Nat → Option String :=
  data.foldl
    (fun lookup e =>
      match e.UserID, e.Callsign with
      | some u, some c => if c ≠ "" then (fun k => if k = u then some c else lookup k) else lookup
      | _, _ => lookup)
    (fun _ => none)

/-- Models `activator_lookup.get(user_id)` with a possibly-missing `userId`. -/
def canonicalOf (lookup : Nat → Option String) : Option Nat → Option String
  | some u => lookup u
  | none => none

/-- Embeds the enrichment of `src/get-data.py` lines 100-107: look the
participant up in the roll; if the result is falsy and a truthy
`ownCallsign` exists, fall back to the part of `ownCallsign` before the
first `/`. -/
def resolveCallsign (lookup : Nat → Option String) (uid : Option Nat)
    (own : Option String) : Option String :=
  let canonical := canonicalOf lookup uid
  if !(pyTruthy canonical) && pyTruthy own then
    some (beforeSlash (own.getD ""))
  else canonical

/-- A raw activation as returned by the per-summit activations endpoint
(the fields `src/get-data.py` reads). -/
structure RawActivation where
  userId : Option Nat
  ownCallsign : Option String
  activationDate : String
  deriving DecidableEq, Repr

/-- Embeds `enriched = {**act, "Callsign": canonical_callsign}` from
`src/get-data.py` lines 109-112. -/
def enrichActivation (lookup : Nat → Option String) (act : RawActivation) : Activation :=
  { userId := act.userId
    ownCallsign := act.ownCallsign
    activationDate := act.activationDate
    Callsign := resolveCallsign lookup act.userId act.ownCallsign }

/-- One region stub from the association's region list (only `regionCode`
is read). -/
structure RegionStub where
  regionCode : String
  deriving DecidableEq, Repr

/-- The per-region detail document: the `region` object and its summits. -/
structure RegionDetail where
  region : RegionInfo
  summits : List Summit
  deriving DecidableEq, Repr

/-- Embeds the `try: activations = fetch_activations(...) except: activations = []`
of `src/get-data.py` lines 92-96: a failed per-summit fetch is replaced by an
empty activation list. -/
def pyTryActivations (r : Except String (List RawActivation)) : List RawActivation :=
  match r with
  | Except.ok a => a
  | Except.error _ => []

/-- The summit entry built in the inner loop of `main`
(`src/get-data.py` lines 88-119): fetch (with the per-summit exception
handler), enrich every activation, and store under the summit code. -/
def summitEntryFor (lookup : Nat → Option String)
    (activationsOf : String → Except String (List RawActivation))
    (summit : Summit) : String × SummitEntry :=
  (summit.summitCode,
   { summit := summit
     activations := (pyTryActivations (activationsOf summit.summitCode)).map
       (enrichActivation lookup) })

/-- The region entry built for one region from its fetched detail. -/
def regionEntryFor (lookup : Nat → Option String)
    (activationsOf : String → Except String (List RawActivation))
    (det : RegionDetail) : RegionEntry :=
  { region := det.region
    summits := det.summits.map (summitEntryFor lookup activationsOf) }

/-- One step of the region loop of `main`: fetch the region detail (failures
propagate) and append the region entry. -/
def regionStep (lookup : Nat → Option String)
    (regionDetails : String → Except String RegionDetail)
    (activationsOf : String → Except String (List RawActivation))
    (acc : List (String × RegionEntry)) (stub : RegionStub) :
    Except String (List (String × RegionEntry)) := do
  let det ← regionDetails stub.regionCode
  pure (acc ++ [(stub.regionCode, regionEntryFor lookup activationsOf det)])

/-- Embeds `main` from `src/get-data.py` lines 65-129 with the network calls
abstracted as oracles: fetch the roll (failures propagate), fetch the region
list (failures propagate), walk the regions building entries (region-detail
failures propagate, per-summit failures are swallowed inside
`summitEntryFor`), and assemble the snapshot. -/
def mainFetch (rollResult : Except String (List RollEntry))
    (regionsResult : Except String (List RegionStub))
    (regionDetails : String → Except String RegionDetail)
    (activationsOf : String → Except String (List RawActivation))
    (now : String) : Except String Snapshot := do
  let rollData ← rollResult
  let lookup := fetch_activator_roll rollData
  let regions ← regionsResult
  let entries ← regions.foldlM (regionStep lookup regionDetails activationsOf) []
  pure { generated_at := now, association := "GW", regions := entries }

/-! ### Spec-side definitions (for the refinement claim C1)

These follow the specification's words for the per-year participant summary
("filter records to the requested year; deduplicate by (participant, summit)
pair; group by participant and count distinct summits"), with a participant
identified by its `(userId, Callsign)` pair. -/

/-- The distinct participants appearing among the records of year `y`, in
order of first appearance. -/
def specSummaryParticipants (rs : List FlatRecord) (y : Int) : List (Nat × String) :=
  dropDuplicatesBy id ((rs.filter (fun r => decide (r.year = y))).filterMap ucKey)

/-- The number of distinct summits activated by participant `(u, c)` among
the records of year `y`. -/
def specDistinctSummitCount (rs : List FlatRecord) (y : Int) (u : Nat) (c : String) : Nat :=
  (dropDuplicatesBy id
    (((rs.filter (fun r => decide (r.year = y))).filter
        (fun r => decide (r.userId = some u ∧ r.Callsign = some c))).map
      (fun r => r.summitCode))).length

/-- Every record's participant identifier determines its resolved callsign
(the situation produced by enrichment when each user id carries one
canonical identity). -/
def callsignConsistent (rs : List FlatRecord) : Prop :=
  ∀ r ∈ rs, ∀ r' ∈ rs, r.userId = r'.userId → r.Callsign = r'.Callsign

/-- Every record has a non-null participant id and resolved callsign. -/
def allResolved (rs : List FlatRecord) : Prop :=
  ∀ r ∈ rs, r.userId ≠ none ∧ r.Callsign ≠ none

instance (rs : List FlatRecord) : Decidable (callsignConsistent rs) :=
  inferInstanceAs (Decidable
    (∀ r ∈ rs, ∀ r' ∈ rs, r.userId = r'.userId → r.Callsign = r'.Callsign))

instance (rs : List FlatRecord) : Decidable (allResolved rs) :=
  inferInstanceAs (Decidable (∀ r ∈ rs, r.userId ≠ none ∧ r.Callsign ≠ none))

/-! ### Concrete instances used by examples, witnesses and counterexamples -/

/-- The summit of the specification's worked example. -/
def exampleSummit : Summit :=
  { summitCode := "GW/NW-001", name := "Example Summit", points := 6,
    latitude := 52, longitude := -3 }

/-- The example summit's entry: activations by P1 (twice) and P2 in 2023. -/
def exampleSummitEntry : SummitEntry :=
  { summit := exampleSummit
    activations :=
      [{ userId := some 1, ownCallsign := some "P1",
         activationDate := "2023-05-01", Callsign := some "P1" },
       { userId := some 1, ownCallsign := some "P1",
         activationDate := "2023-07-10", Callsign := some "P1" },
       { userId := some 2, ownCallsign := some "P2",
         activationDate := "2023-06-01", Callsign := some "P2" }] }

/-- The example region entry owning the one example summit. -/
def exampleRegionEntry : RegionEntry :=
  { region := { summits := 1 }
    summits := [("GW/NW-001", exampleSummitEntry)] }

/-- The specification's worked example snapshot: region "R1" owning summit
"GW/NW-001" with activations by P1 (twice) and P2 in 2023. -/
def exampleSnapshot : Snapshot :=
  { generated_at := "2024-01-01T00:00:00Z"
    association := "GW"
    regions := [("R1", exampleRegionEntry)] }

/-- The flat records of the example snapshot. -/
def exampleRecords : List FlatRecord := build_activation_dataframe exampleSnapshot

/-- A flat record whose resolved callsign is null (a participant the roll
does not know and who reported no callsign). -/
def nullRec : FlatRecord :=
  { userId := some 7, Callsign := none, activationDate := "2023-06-01",
    year := 2023, summitCode := "GW/NW-002", summitName := "Null Summit",
    points := 1, latitude := 52, longitude := -3 }

/-- A record by participant id 5 resolved as "A".  Together with
`incRecB` it realizes one user id carrying two resolved callsigns, which
the per-event `ownCallsign` fallback of the enrichment makes reachable. -/
def incRecA : FlatRecord :=
  { userId := some 5, Callsign := some "A", activationDate := "2023-03-01",
    year := 2023, summitCode := "GW/NW-005", summitName := "S5",
    points := 4, latitude := 52, longitude := -3 }

/-- A record by the same participant id 5 resolved as "B", on the same
summit as `incRecA`. -/
def incRecB : FlatRecord :=
  { userId := some 5, Callsign := some "B", activationDate := "2023-04-01",
    year := 2023, summitCode := "GW/NW-005", summitName := "S5",
    points := 4, latitude := 52, longitude := -3 }

example : summary exampleRecords 2023 = [((1, "P1"), 1), ((2, "P2"), 1)] := by decide

example : yearly_totals exampleRecords = [(2023, 2)] := by decide

example : winners [nullRec] = [] := by decide

example : yearly_totals [nullRec] = [(2023, 1)] := by decide

/-! ### Order facts -/

theorem charListLt_trans : ∀ {as bs cs : List Char},
    charListLt as bs = true → charListLt bs cs = true → charListLt as cs = true := by
  intro as
  induction as with
  | nil =>
    intro bs cs h1 h2
    cases bs <;> cases cs <;> simp_all [charListLt]
  | cons a as ih =>
    intro bs cs h1 h2
    cases bs with
    | nil => simp [charListLt] at h1
    | cons b bs' =>
      cases cs with
      | nil => simp [charListLt] at h2
      | cons c cs' =>
        simp only [charListLt, Bool.or_eq_true, Bool.and_eq_true,
          decide_eq_true_eq] at h1 h2 ⊢
        rcases h1 with h1 | ⟨hab, h1⟩ <;> rcases h2 with h2 | ⟨hbc, h2⟩
        · exact Or.inl (lt_trans h1 h2)
        · exact Or.inl (hbc ▸ h1)
        · exact Or.inl (hab ▸ h2)
        · exact Or.inr ⟨hab.trans hbc, ih h1 h2⟩

theorem charListLt_trichot : ∀ (as bs : List Char),
    charListLt as bs = true ∨ as = bs ∨ charListLt bs as = true := by
  intro as
  induction as with
  | nil =>
    intro bs
    cases bs <;> simp [charListLt]
  | cons a as ih =>
    intro bs
    cases bs with
    | nil => simp [charListLt]
    | cons b bs' =>
      simp only [charListLt, Bool.or_eq_true, Bool.and_eq_true,
        decide_eq_true_eq, List.cons.injEq]
      rcases lt_trichotomy a b with h | h | h
      · exact Or.inl (Or.inl h)
      · rcases ih bs' with h' | h' | h'
        · exact Or.inl (Or.inr ⟨h, h'⟩)
        · exact Or.inr (Or.inl ⟨h, h'⟩)
        · exact Or.inr (Or.inr (Or.inr ⟨h.symm, h'⟩))
      · exact Or.inr (Or.inr (Or.inl h))

theorem string_eq_of_data_eq {a b : String} (h : a.data = b.data) : a = b := by
  cases a
  cases b
  exact congrArg String.mk h

theorem strLt_trans {a b c : String} (h1 : strLt a b) (h2 : strLt b c) : strLt a c :=
  charListLt_trans h1 h2

theorem strLe_trans {a b c : String} (h1 : strLe a b) (h2 : strLe b c) : strLe a c := by
  rcases h1 with h1 | rfl
  · rcases h2 with h2 | rfl
    · exact Or.inl (strLt_trans h1 h2)
    · exact Or.inl h1
  · exact h2

theorem strLe_total (a b : String) : strLe a b ∨ strLe b a := by
  rcases charListLt_trichot a.data b.data with h | h | h
  · exact Or.inl (Or.inl h)
  · exact Or.inl (Or.inr (string_eq_of_data_eq h))
  · exact Or.inr (Or.inl h)

instance : IsTrans (Nat × String) ucLE where
  trans a b c h1 h2 := by
    rcases h1 with h1 | ⟨e1, s1⟩ <;> rcases h2 with h2 | ⟨e2, s2⟩
    · exact Or.inl (lt_trans h1 h2)
    · exact Or.inl (e2 ▸ h1)
    · exact Or.inl (e1 ▸ h2)
    · exact Or.inr ⟨e1.trans e2, strLe_trans s1 s2⟩

instance : IsTotal (Nat × String) ucLE where
  total a b := by
    rcases Nat.lt_trichotomy a.1 b.1 with h | h | h
    · exact Or.inl (Or.inl h)
    · rcases strLe_total a.2 b.2 with h' | h'
      · exact Or.inl (Or.inr ⟨h, h'⟩)
      · exact Or.inr (Or.inr ⟨h.symm, h'⟩)
    · exact Or.inr (Or.inl h)

instance : IsTrans ((Nat × String) × Nat) countGE where
  trans _ _ _ h1 h2 := Nat.le_trans h2 h1

instance : IsTotal ((Nat × String) × Nat) countGE where
  total a b := by
    rcases Nat.le_total b.2 a.2 with h | h
    · exact Or.inl h
    · exact Or.inr h

instance : IsTrans ((Int × Nat × String) × Nat) ycLE where
  trans a b c h1 h2 := by
    rcases h1 with h1 | ⟨e1, s1⟩ <;> rcases h2 with h2 | ⟨e2, s2⟩
    · exact Or.inl (lt_trans h1 h2)
    · exact Or.inl (e2 ▸ h1)
    · exact Or.inl (e1 ▸ h2)
    · exact Or.inr ⟨e1.trans e2, Nat.le_trans s2 s1⟩

instance : IsTotal ((Int × Nat × String) × Nat) ycLE where
  total a b := by
    rcases lt_trichotomy a.1.1 b.1.1 with h | h | h
    · exact Or.inl (Or.inl h)
    · rcases Nat.le_total b.2 a.2 with h' | h'
      · exact Or.inl (Or.inr ⟨h, h'⟩)
      · exact Or.inr (Or.inr ⟨h.symm, h'⟩)
    · exact Or.inr (Or.inl h)

theorem ucLT_of_ucLE_ne {a b : Nat × String} (h : ucLE a b) (hne : a ≠ b) : ucLT a b := by
  rcases h with h | ⟨e, s⟩
  · exact Or.inl h
  · rcases s with s | s
    · exact Or.inr ⟨e, s⟩
    · exact absurd (Prod.ext e s) hne

/-! ### Lemmas about `dropDupsAux` -/

theorem dropDupsAux_sublist {α κ : Type} (key : α → κ) [DecidableEq κ]
    (seen : List κ) (l : List α) : (dropDupsAux key seen l).Sublist l := by
  induction l generalizing seen with
  | nil => simp [dropDupsAux]
  | cons x xs ih =>
    simp only [dropDupsAux]
    split
    · exact (ih seen).cons x
    · exact (ih (key x :: seen)).cons₂ x

theorem dropDupsAux_subset {α κ : Type} (key : α → κ) [DecidableEq κ]
    {seen : List κ} {l : List α} : dropDupsAux key seen l ⊆ l :=
  (dropDupsAux_sublist key seen l).subset

theorem map_key_dropDupsAux {α κ : Type} (key : α → κ) [DecidableEq κ]
    (seen : List κ) (l : List α) :
    (dropDupsAux key seen l).map key = dropDupsAux id seen (l.map key) := by
  induction l generalizing seen with
  | nil => simp [dropDupsAux]
  | cons x xs ih =>
    simp only [dropDupsAux, List.map_cons, id]
    split
    · exact ih seen
    · simp only [List.map_cons, ih (key x :: seen)]

theorem mem_map_key_dropDupsAux {α κ : Type} (key : α → κ) [DecidableEq κ]
    {seen : List κ} {l : List α} {k : κ} :
    k ∈ (dropDupsAux key seen l).map key ↔ k ∉ seen ∧ k ∈ l.map key := by
  induction l generalizing seen with
  | nil => simp [dropDupsAux]
  | cons x xs ih =>
    simp only [dropDupsAux]
    split
    · rename_i hx
      rw [ih]
      simp only [List.map_cons, List.mem_cons]
      constructor
      · rintro ⟨hk, hk'⟩
        exact ⟨hk, Or.inr hk'⟩
      · rintro ⟨hk, rfl | hk'⟩
        · exact absurd hx hk
        · exact ⟨hk, hk'⟩
    · rename_i hx
      simp only [List.map_cons, List.mem_cons]
      rw [ih]
      simp only [List.mem_cons, not_or]
      constructor
      · rintro (rfl | ⟨⟨hne, hk⟩, hk'⟩)
        · exact ⟨hx, Or.inl rfl⟩
        · exact ⟨hk, Or.inr hk'⟩
      · rintro ⟨hk, rfl | hk'⟩
        · exact Or.inl rfl
        · by_cases hkx : k = key x
          · exact Or.inl hkx
          · exact Or.inr ⟨⟨hkx, hk⟩, hk'⟩

theorem nodup_map_key_dropDupsAux {α κ : Type} (key : α → κ) [DecidableEq κ]
    (seen : List κ) (l : List α) : ((dropDupsAux key seen l).map key).Nodup := by
  induction l generalizing seen with
  | nil => simp [dropDupsAux]
  | cons x xs ih =>
    simp only [dropDupsAux]
    split
    · exact ih seen
    · simp only [List.map_cons, List.nodup_cons]
      refine ⟨fun hmem => ?_, ih (key x :: seen)⟩
      rw [mem_map_key_dropDupsAux] at hmem
      exact hmem.1 (List.mem_cons_self _ _)

theorem exists_rep_dropDupsAux {α κ : Type} (key : α → κ) [DecidableEq κ]
    {seen : List κ} {l : List α} {x : α} (hx : x ∈ l) (hseen : key x ∉ seen) :
    ∃ x0 ∈ dropDupsAux key seen l, key x0 = key x := by
  have hk : key x ∈ (dropDupsAux key seen l).map key := by
    rw [mem_map_key_dropDupsAux]
    exact ⟨hseen, List.mem_map_of_mem key hx⟩
  rcases List.mem_map.mp hk with ⟨x0, hx0, hkey⟩
  exact ⟨x0, hx0, hkey⟩

theorem filter_dropDupsAux {α κ : Type} (key : α → κ) [DecidableEq κ]
    (q : κ → Bool) (seen : List κ) (l : List α) :
    (dropDupsAux key seen l).filter (fun x => q (key x)) =
      dropDupsAux key (seen.filter q) (l.filter (fun x => q (key x))) := by
  induction l generalizing seen with
  | nil => simp [dropDupsAux]
  | cons x xs ih =>
    by_cases hx : key x ∈ seen
    · by_cases hq : q (key x) = true
      · have hx' : key x ∈ seen.filter q := List.mem_filter.mpr ⟨hx, hq⟩
        simp only [dropDupsAux, List.filter_cons, if_pos hx, if_pos hq, if_pos hx']
        exact ih seen
      · simp only [dropDupsAux, List.filter_cons, if_pos hx, if_neg hq]
        exact ih seen
    · by_cases hq : q (key x) = true
      · have hx' : key x ∉ seen.filter q := fun h => hx (List.mem_filter.mp h).1
        simp only [dropDupsAux, List.filter_cons, if_neg hx, if_pos hq, if_neg hx']
        rw [ih (key x :: seen), List.filter_cons, if_pos hq]
      · simp only [dropDupsAux, List.filter_cons, if_neg hx, if_neg hq]
        rw [ih (key x :: seen), List.filter_cons, if_neg hq]

theorem dropDupsAux_append_dup {α κ : Type} (key : α → κ) [DecidableEq κ]
    (seen : List κ) (l : List α) (x : α)
    (hx : key x ∈ seen ∨ ∃ x' ∈ l, key x' = key x) :
    dropDupsAux key seen (l ++ [x]) = dropDupsAux key seen l := by
  induction l generalizing seen with
  | nil =>
    rcases hx with hx | ⟨x', hx', _⟩
    · simp [dropDupsAux, hx]
    · simp at hx'
  | cons z zs ih =>
    simp only [List.cons_append, dropDupsAux]
    split
    · rename_i hz
      apply ih
      rcases hx with hx | ⟨x', hx', hkey⟩
      · exact Or.inl hx
      · rcases List.mem_cons.mp hx' with rfl | hx''
        · exact Or.inl (hkey ▸ hz)
        · exact Or.inr ⟨x', hx'', hkey⟩
    · congr 1
      apply ih
      rcases hx with hx | ⟨x', hx', hkey⟩
      · exact Or.inl (List.mem_cons_of_mem _ hx)
      · rcases List.mem_cons.mp hx' with rfl | hx''
        · exact Or.inl (by rw [← hkey]; exact List.mem_cons_self _ _)
        · exact Or.inr ⟨x', hx'', hkey⟩

theorem dropDupsAux_congr_key {α : Type} {κ₁ κ₂ : Type} [DecidableEq κ₁] [DecidableEq κ₂]
    (key₁ : α → κ₁) (key₂ : α → κ₂) (l : List α) (seen₁ : List κ₁) (seen₂ : List κ₂)
    (hmem : ∀ a ∈ l, (key₁ a ∈ seen₁ ↔ key₂ a ∈ seen₂))
    (hequiv : ∀ a ∈ l, ∀ b ∈ l, (key₁ a = key₁ b ↔ key₂ a = key₂ b)) :
    dropDupsAux key₁ seen₁ l = dropDupsAux key₂ seen₂ l := by
  induction l generalizing seen₁ seen₂ with
  | nil => simp [dropDupsAux]
  | cons x xs ih =>
    have hxmem := hmem x (List.mem_cons_self x xs)
    simp only [dropDupsAux]
    by_cases hx : key₁ x ∈ seen₁
    · rw [if_pos hx, if_pos (hxmem.mp hx)]
      exact ih seen₁ seen₂ (fun a ha => hmem a (List.mem_cons_of_mem x ha))
        (fun a ha b hb => hequiv a (List.mem_cons_of_mem x ha) b (List.mem_cons_of_mem x hb))
    · rw [if_neg hx, if_neg (fun h => hx (hxmem.mpr h))]
      congr 1
      apply ih
      · intro a ha
        have he := hequiv a (List.mem_cons_of_mem x ha) x (List.mem_cons_self x xs)
        have hm := hmem a (List.mem_cons_of_mem x ha)
        simp only [List.mem_cons]
        constructor
        · rintro (h | h)
          · exact Or.inl (he.mp h)
          · exact Or.inr (hm.mp h)
        · rintro (h | h)
          · exact Or.inl (he.mpr h)
          · exact Or.inr (hm.mpr h)
      · exact fun a ha b hb =>
          hequiv a (List.mem_cons_of_mem x ha) b (List.mem_cons_of_mem x hb)

theorem length_dropDupsAux_map_inj {κ' κ : Type} [DecidableEq κ] [DecidableEq κ']
    (f : κ' → κ) (hf : Function.Injective f) (l : List κ') (seen : List κ) (seen' : List κ')
    (hseen : ∀ k, f k ∈ seen ↔ k ∈ seen') :
    (dropDupsAux id seen (l.map f)).length = (dropDupsAux id seen' l).length := by
  induction l generalizing seen seen' with
  | nil => simp [dropDupsAux]
  | cons x xs ih =>
    simp only [List.map_cons, dropDupsAux, id_eq]
    by_cases hx : f x ∈ seen
    · rw [if_pos hx, if_pos ((hseen x).mp hx)]
      exact ih seen seen' hseen
    · rw [if_neg hx, if_neg (fun h => hx ((hseen x).mpr h))]
      simp only [List.length_cons]
      rw [ih (f x :: seen) (x :: seen') ?hs]
      case hs =>
        intro k
        simp only [List.mem_cons]
        exact or_congr ⟨fun h => hf h, fun h => congrArg f h⟩ (hseen k)

theorem mem_dropDuplicatesBy_id {κ : Type} [DecidableEq κ] {l : List κ} {k : κ} :
    k ∈ dropDuplicatesBy id l ↔ k ∈ l := by
  have h := @mem_map_key_dropDupsAux κ κ id _ [] l k
  simpa [dropDuplicatesBy, List.map_id] using h

theorem nodup_dropDuplicatesBy_id {κ : Type} [DecidableEq κ] (l : List κ) :
    (dropDuplicatesBy id l).Nodup := by
  have h := nodup_map_key_dropDupsAux id [] l
  simpa [dropDuplicatesBy, List.map_id] using h

/-! ### Lemmas about `groupbyCount` -/

theorem mem_groupbyCount {α κ : Type} [DecidableEq κ] (key : α → Option κ)
    (r : κ → κ → Prop) [DecidableRel r] (l : List α) (k : κ) (n : Nat) :
    (k, n) ∈ groupbyCount key r l ↔
      (k ∈ l.filterMap key ∧ n = l.countP (fun x => decide (key x = some k))) := by
  simp only [groupbyCount, List.mem_map]
  constructor
  · rintro ⟨k', hk', hk⟩
    rw [Prod.mk.injEq] at hk
    obtain ⟨rfl, rfl⟩ := hk
    rw [List.mem_insertionSort] at hk'
    exact ⟨mem_dropDuplicatesBy_id.mp hk', rfl⟩
  · rintro ⟨hk, rfl⟩
    exact ⟨k, by rw [List.mem_insertionSort]; exact mem_dropDuplicatesBy_id.mpr hk, rfl⟩

theorem nodup_keys_groupbyCount {α κ : Type} [DecidableEq κ] (key : α → Option κ)
    (r : κ → κ → Prop) [DecidableRel r] (l : List α) :
    ((groupbyCount key r l).map Prod.fst).Nodup := by
  simp only [groupbyCount, List.map_map]
  have h : (Prod.fst ∘ fun k : κ => (k, l.countP (fun x => decide (key x = some k)))) = id := by
    funext k
    rfl
  rw [h, List.map_id]
  exact ((List.perm_insertionSort r _).nodup_iff).mpr (nodup_dropDuplicatesBy_id _)

theorem countP_not_add {α : Type} (p : α → Bool) (l : List α) :
    l.countP p + l.countP (fun a => !(p a)) = l.length := by
  induction l with
  | nil => simp
  | cons x xs ih =>
    by_cases h : p x = true <;>
      simp [List.countP_cons, h, ← ih] <;> omega

theorem sum_countP_partition {α κ : Type} [DecidableEq κ] (key : α → Option κ) :
    ∀ (ks : List κ) (l : List α), ks.Nodup →
      (∀ x ∈ l, ∃ k ∈ ks, key x = some k) →
      (ks.map (fun k => l.countP (fun x => decide (key x = some k)))).sum = l.length := by
  intro ks
  induction ks with
  | nil =>
    intro l _ hcov
    simp only [List.map_nil, List.sum_nil]
    cases l with
    | nil => rfl
    | cons x xs =>
      rcases hcov x (List.mem_cons_self x xs) with ⟨k, hk, _⟩
      simp at hk
  | cons k ks ih =>
    intro l hnd hcov
    simp only [List.map_cons, List.sum_cons]
    have hnd' := List.nodup_cons.mp hnd
    have hrest : ∀ k' ∈ ks,
        l.countP (fun x => decide (key x = some k')) =
          (l.filter (fun x => !(decide (key x = some k)))).countP
            (fun x => decide (key x = some k')) := by
      intro k' hk'
      rw [List.countP_filter]
      apply List.countP_congr
      intro x _
      simp only [Bool.and_eq_true, decide_eq_true_eq, Bool.not_eq_true',
        decide_eq_false_iff_not]
      constructor
      · intro h
        refine ⟨h, fun hcontra => ?_⟩
        rw [h] at hcontra
        rcases Option.some.injEq _ _ ▸ hcontra with rfl
        exact hnd'.1 hk'
      · exact fun h => h.1
    have hmap : ks.map (fun k' => l.countP (fun x => decide (key x = some k'))) =
        ks.map (fun k' =>
          (l.filter (fun x => !(decide (key x = some k)))).countP
            (fun x => decide (key x = some k'))) :=
      List.map_congr_left hrest
    rw [hmap, ih (l.filter (fun x => !(decide (key x = some k)))) hnd'.2 ?hcov2]
    case hcov2 =>
      intro x hx
      rcases List.mem_filter.mp hx with ⟨hxl, hxne⟩
      rcases hcov x hxl with ⟨k'', hk'', hkey⟩
      rcases List.mem_cons.mp hk'' with rfl | hk'''
      · exfalso
        simp only [Bool.not_eq_true', decide_eq_false_iff_not] at hxne
        exact hxne hkey
      · exact ⟨k'', hk''', hkey⟩
    rw [← List.countP_eq_length_filter]
    exact countP_not_add _ l

/-! ### Stability of the modelled sorts -/

theorem pairwise_orderedInsert_val {α : Type} (val : α → Nat) (r : α → α → Prop)
    [DecidableRel r] (hr : ∀ a b, r a b ↔ val b ≤ val a)
    (R : α → α → Prop) (hRval : ∀ a b, R a b → val b ≤ val a)
    (x : α) (l : List α) (hl : l.Pairwise R)
    (hbig : ∀ y ∈ l, val x < val y → R y x)
    (hsmall : ∀ y ∈ l, val y ≤ val x → R x y) :
    (List.orderedInsert r x l).Pairwise R := by
  induction l with
  | nil => simp
  | cons y ys ih =>
    have hly := List.pairwise_cons.mp hl
    simp only [List.orderedInsert]
    split
    · rename_i hxy
      rw [hr] at hxy
      refine List.Pairwise.cons ?_ hl
      intro z hz
      rcases List.mem_cons.mp hz with rfl | hz'
      · exact hsmall z (List.mem_cons_self _ _) hxy
      · exact hsmall z (List.mem_cons_of_mem _ hz')
          (le_trans (hRval _ _ (hly.1 z hz')) hxy)
    · rename_i hxy
      rw [hr] at hxy
      have hxy' : val x < val y := Nat.lt_of_not_le hxy
      refine List.Pairwise.cons ?_
        (ih hly.2 (fun z hz h => hbig z (List.mem_cons_of_mem _ hz) h)
          (fun z hz h => hsmall z (List.mem_cons_of_mem _ hz) h))
      intro z hz
      rcases (List.mem_orderedInsert r).mp hz with rfl | hz'
      · exact hbig y (List.mem_cons_self _ _) hxy'
      · exact hly.1 z hz'

theorem pairwise_insertionSort_stable {α : Type} (val : α → Nat) (r : α → α → Prop)
    [DecidableRel r] (hr : ∀ a b, r a b ↔ val b ≤ val a)
    (S : α → α → Prop) (l : List α) (hl : l.Pairwise S) :
    (List.insertionSort r l).Pairwise
      (fun a b => val b < val a ∨ (val a = val b ∧ S a b)) := by
  induction l with
  | nil => simp
  | cons x xs ih =>
    have hl' := List.pairwise_cons.mp hl
    simp only [List.insertionSort]
    apply pairwise_orderedInsert_val val r hr _ ?hRval x _ (ih hl'.2) ?hbig ?hsmall
    case hRval =>
      rintro a b (h | ⟨h, _⟩)
      · exact le_of_lt h
      · exact le_of_eq h.symm
    case hbig =>
      intro y _ h
      exact Or.inl h
    case hsmall =>
      intro y hy h
      rcases lt_or_eq_of_le h with h' | h'
      · exact Or.inl h'
      · exact Or.inr ⟨h'.symm, hl'.1 y ((List.mem_insertionSort r).mp hy)⟩

theorem dropDupsAux_first_max {α : Type} (yr : α → Int) (cnt : α → Nat)
    (l : List α) (seen : List Int)
    (hsorted : l.Pairwise (fun a b => yr a < yr b ∨ (yr a = yr b ∧ cnt b ≤ cnt a))) :
    ∀ w ∈ dropDupsAux yr seen l, ∀ row ∈ l, yr row = yr w → cnt row ≤ cnt w := by
  induction l generalizing seen with
  | nil => simp [dropDupsAux]
  | cons x xs ih =>
    intro w hw row hrow hyear
    have hp := List.pairwise_cons.mp hsorted
    simp only [dropDupsAux] at hw
    by_cases hx : yr x ∈ seen
    · rw [if_pos hx] at hw
      rcases List.mem_cons.mp hrow with rfl | hrow'
      · exfalso
        have hwseen : yr w ∉ seen :=
          ((mem_map_key_dropDupsAux yr).mp (List.mem_map_of_mem yr hw)).1
        exact hwseen (hyear ▸ hx)
      · exact ih seen hp.2 w hw row hrow' hyear
    · rw [if_neg hx] at hw
      rcases List.mem_cons.mp hw with rfl | hw'
      · rcases List.mem_cons.mp hrow with rfl | hrow'
        · exact le_refl _
        · rcases hp.1 row hrow' with h | ⟨_, h⟩
          · exfalso
            omega
          · exact h
      · rcases List.mem_cons.mp hrow with rfl | hrow'
        · exfalso
          have hwseen : yr w ∉ yr row :: seen :=
            ((mem_map_key_dropDupsAux yr).mp (List.mem_map_of_mem yr hw')).1
          exact hwseen (by rw [← hyear]; exact List.mem_cons_self _ _)
        · exact ih (yr x :: seen) hp.2 w hw' row hrow' hyear

/-! ### Key inversion lemmas -/

theorem ucKey_eq_some {r : FlatRecord} {u : Nat} {c : String} :
    ucKey r = some (u, c) ↔ (r.userId = some u ∧ r.Callsign = some c) := by
  cases hru : r.userId <;> cases hrc : r.Callsign <;>
    simp [ucKey, hru, hrc, and_comm]

theorem ucKey_ne_none {r : FlatRecord} :
    ucKey r ≠ none ↔ (r.userId ≠ none ∧ r.Callsign ≠ none) := by
  cases hru : r.userId <;> cases hrc : r.Callsign <;> simp [ucKey, hru, hrc]

theorem yucKey_eq_some {r : FlatRecord} {yy : Int} {u : Nat} {c : String} :
    yucKey r = some (yy, u, c) ↔
      (r.year = yy ∧ r.userId = some u ∧ r.Callsign = some c) := by
  cases hru : r.userId <;> cases hrc : r.Callsign <;>
    simp [yucKey, hru, hrc]

theorem yucKey_ne_none {r : FlatRecord} :
    yucKey r ≠ none ↔ (r.userId ≠ none ∧ r.Callsign ≠ none) := by
  cases hru : r.userId <;> cases hrc : r.Callsign <;> simp [yucKey, hru, hrc]

/-! ### Null-key rows and groupby -/

theorem filterMap_filter_ne_none {α κ : Type} [DecidableEq κ]
    (key : α → Option κ) (l : List α) :
    (l.filter (fun x => decide (key x ≠ none))).filterMap key = l.filterMap key := by
  induction l with
  | nil => rfl
  | cons x xs ih =>
    rw [List.filter_cons]
    by_cases h : key x = none
    · rw [if_neg (by simp [h]), ih, List.filterMap_cons, h]
    · rcases Option.ne_none_iff_exists'.mp h with ⟨k, hk⟩
      rw [if_pos (by simp [h]), List.filterMap_cons, hk, List.filterMap_cons, hk, ih]

theorem groupbyCount_filter_ne_none {α κ : Type} [DecidableEq κ] (key : α → Option κ)
    (r : κ → κ → Prop) [DecidableRel r] (l : List α) :
    groupbyCount key r (l.filter (fun x => decide (key x ≠ none))) =
      groupbyCount key r l := by
  unfold groupbyCount
  rw [filterMap_filter_ne_none]
  apply List.map_congr_left
  intro k _
  rw [Prod.mk.injEq]
  refine ⟨rfl, ?_⟩
  rw [List.countP_filter]
  apply List.countP_congr
  intro x _
  simp only [Bool.and_eq_true, decide_eq_true_eq]
  constructor
  · exact fun h => h.1
  · intro h
    exact ⟨h, by simp [h]⟩

/-! ### The roll lookup never stores an empty callsign -/

theorem fetch_activator_roll_ne_empty (data : List RollEntry) (u : Nat) :
    fetch_activator_roll data u ≠ some "" := by
  unfold fetch_activator_roll
  suffices h : ∀ (f : Nat → Option String), (∀ k, f k ≠ some "") →
      ∀ k, (List.foldl
        (fun lookup e =>
          match e.UserID, e.Callsign with
          | some u, some c =>
            if c ≠ "" then (fun k => if k = u then some c else lookup k) else lookup
          | _, _ => lookup)
        f data) k ≠ some "" by
    exact h (fun _ => none) (by simp) u
  induction data with
  | nil =>
    intro f hf k
    exact hf k
  | cons e es ih =>
    intro f hf k
    rw [List.foldl_cons]
    apply ih
    intro k'
    cases hU : e.UserID with
    | none => simpa [hU] using hf k'
    | some u' =>
      cases hC : e.Callsign with
      | none => simpa [hU, hC] using hf k'
      | some c =>
        by_cases hc : c = ""
        · simpa [hU, hC, hc] using hf k'
        · show (if c ≠ "" then (fun k => if k = u' then some c else f k) else f) k' ≠ some ""
          rw [if_pos hc]
          by_cases hku : k' = u'
          · simp [hku, hc]
          · simpa [hku] using hf k'

/-! ### Top-level corollaries for `dropDuplicatesBy` -/

theorem mem_of_mem_dropDuplicatesBy {α κ : Type} (key : α → κ) [DecidableEq κ]
    {l : List α} {x : α} (h : x ∈ dropDuplicatesBy key l) : x ∈ l :=
  dropDupsAux_subset key h

theorem exists_rep_dropDuplicatesBy {α κ : Type} (key : α → κ) [DecidableEq κ]
    {l : List α} {x : α} (hx : x ∈ l) :
    ∃ x0 ∈ dropDuplicatesBy key l, key x0 = key x :=
  exists_rep_dropDupsAux key hx (List.not_mem_nil _)

/-! ### Further concrete records used by witnesses and counterexamples -/

/-- A record duplicating the `(participant, summit, year)` triple of the
first example record. -/
def dupRec : FlatRecord :=
  { userId := some 1, Callsign := some "P1", activationDate := "2023-08-01",
    year := 2023, summitCode := "GW/NW-001", summitName := "Example Summit",
    points := 6, latitude := 52, longitude := -3 }

/-- A record by participant `(2, "B")` appearing before `(1, "A")` in
traversal order. -/
def tieRecB : FlatRecord :=
  { userId := some 2, Callsign := some "B", activationDate := "2023-01-01",
    year := 2023, summitCode := "GW/NW-003", summitName := "S3",
    points := 2, latitude := 52, longitude := -3 }

/-- A record by participant `(1, "A")` appearing after `(2, "B")` in
traversal order. -/
def tieRecA : FlatRecord :=
  { userId := some 1, Callsign := some "A", activationDate := "2023-02-02",
    year := 2023, summitCode := "GW/NW-004", summitName := "S4",
    points := 2, latitude := 52, longitude := -3 }

/-- C4: the resolved canonical callsign is the roll's entry when the
participant id is in the roll (taking precedence over the self-reported
callsign, as in the 555/MW0XYZ example); otherwise the self-reported
callsign with its "/"-delimited suffix removed when one is present;
otherwise null, and no error is raised (the resolver is total). -/
theorem C4_callsign_resolution (roll : List RollEntry) (uid : Option Nat)
    (own : Option String) :
    (∀ u c, uid = some u → fetch_activator_roll roll u = some c →
        resolveCallsign (fetch_activator_roll roll) uid own = some c)
    ∧ (canonicalOf (fetch_activator_roll roll) uid = none →
        ∀ s, own = some s → s ≠ "" →
          resolveCallsign (fetch_activator_roll roll) uid own = some (beforeSlash s))
    ∧ (canonicalOf (fetch_activator_roll roll) uid = none → pyTruthy own = false →
        resolveCallsign (fetch_activator_roll roll) uid own = none)
    ∧ resolveCallsign (fetch_activator_roll [⟨some 555, some "MW0XYZ"⟩])
        (some 555) (some "MW0XYZ/P") = some "MW0XYZ" := by
  refine ⟨?_, ?_, ?_, by decide⟩
  · rintro u c rfl hc
    have hcanon : canonicalOf (fetch_activator_roll roll) (some u) = some c := hc
    have hne : c ≠ "" := by
      intro h
      exact fetch_activator_roll_ne_empty roll u (h ▸ hc)
    simp only [resolveCallsign, hcanon]
    simp [pyTruthy, hne]
  · rintro hnone s rfl hs
    simp only [resolveCallsign, hnone]
    simp [pyTruthy, hs]
  · intro hnone hfal
    simp only [resolveCallsign, hnone]
    rw [hfal]
    simp

/-- C4 witness: the specification's worked example, through
`C4_callsign_resolution`. -/
theorem C4_witness :
    resolveCallsign (fetch_activator_roll [⟨some 555, some "MW0XYZ"⟩])
      (some 555) (some "MW0XYZ/P") = some "MW0XYZ" :=
  (C4_callsign_resolution [⟨some 555, some "MW0XYZ"⟩] (some 555)
    (some "MW0XYZ/P")).1 555 "MW0XYZ" rfl (by decide)

/-- C5 counterexample: the claim "the resolved callsign is non-empty
whenever a fallback is available" is false: a self-reported callsign
beginning with `/` is a present fallback, yet resolution yields the empty
string. -/
theorem C5_counterexample :
    resolveCallsign (fetch_activator_roll []) (some 1) (some "/P") = some "" := by
  decide

/-- C5 (amended): the resolved callsign is non-NULL whenever a fallback is
available, and it is null exactly when both the canonical lookup and a
truthy self-reported callsign are absent; resolution is total (no
exception). -/
theorem C5_null_resolution (roll : List RollEntry) (uid : Option Nat)
    (own : Option String) :
    resolveCallsign (fetch_activator_roll roll) uid own = none ↔
      (canonicalOf (fetch_activator_roll roll) uid = none ∧ pyTruthy own = false) := by
  constructor
  · intro h
    by_cases hb : (!(pyTruthy (canonicalOf (fetch_activator_roll roll) uid))
        && pyTruthy own) = true
    · exfalso
      unfold resolveCallsign at h
      rw [if_pos hb] at h
      exact Option.noConfusion h
    · unfold resolveCallsign at h
      rw [if_neg hb] at h
      refine ⟨h, ?_⟩
      rw [h] at hb
      simpa [pyTruthy] using hb
  · rintro ⟨hc, ho⟩
    simp only [resolveCallsign, hc]
    rw [ho]
    simp

/-- C6: appending a record that repeats an existing record's
`(userId, summitCode, year)` triple leaves the whole per-year summary (hence
every participant's count) unchanged, for every year. -/
theorem C6_duplicate_idempotent (rs : List FlatRecord) (r : FlatRecord)
    (hdup : ∃ r' ∈ rs, r'.userId = r.userId ∧ r'.summitCode = r.summitCode
      ∧ r'.year = r.year) :
    ∀ y, summary (rs ++ [r]) y = summary rs y := by
  intro y
  have hfilter : (rs ++ [r]).filter (fun rr => decide (rr.year = y)) =
      rs.filter (fun rr => decide (rr.year = y))
        ++ [r].filter (fun rr => decide (rr.year = y)) :=
    List.filter_append _ _
  by_cases hy : r.year = y
  · have h1 : [r].filter (fun rr => decide (rr.year = y)) = [r] := by simp [hy]
    have h2 : dropDuplicatesBy usKey
        (rs.filter (fun rr => decide (rr.year = y)) ++ [r]) =
        dropDuplicatesBy usKey (rs.filter (fun rr => decide (rr.year = y))) := by
      unfold dropDuplicatesBy
      apply dropDupsAux_append_dup
      rcases hdup with ⟨r', hr', h1', h2', h3'⟩
      refine Or.inr ⟨r', List.mem_filter.mpr ⟨hr', by simp [h3', hy]⟩, ?_⟩
      simp [usKey, h1', h2']
    unfold summary
    rw [hfilter, h1, h2]
  · have h1 : [r].filter (fun rr => decide (rr.year = y)) = [] := by simp [hy]
    unfold summary
    rw [hfilter, h1, List.append_nil]

/-- C6 witness: appending a repeat activation of summit GW/NW-001 by
participant 1 in 2023 leaves the example summary unchanged. -/
theorem C6_witness :
    (∃ r' ∈ exampleRecords, r'.userId = dupRec.userId
      ∧ r'.summitCode = dupRec.summitCode ∧ r'.year = dupRec.year)
    ∧ summary (exampleRecords ++ [dupRec]) 2023 = summary exampleRecords 2023 :=
  ⟨by decide, C6_duplicate_idempotent exampleRecords dupRec (by decide) 2023⟩

/-- C9 counterexample: with ties, the summary does not preserve traversal
(first-appearance) order: participant (2, "B") appears first in the records,
but the summary lists (1, "A") first because the groupby sorts its keys
ascending. -/
theorem C9_counterexample :
    [tieRecB, tieRecA].filterMap ucKey = [(2, "B"), (1, "A")]
    ∧ summary [tieRecB, tieRecA] 2023 = [((1, "A"), 1), ((2, "B"), 1)] := by
  decide

/-- C9 (amended): participants with equal counts appear in ascending
`(userId, Callsign)` order: the groupby emits its groups sorted by key, and
the stable descending sort on count preserves that order among ties. -/
theorem C9_tie_order (rs : List FlatRecord) (y : Int) :
    (summary rs y).Pairwise
      (fun a b => b.2 < a.2 ∨ (a.2 = b.2 ∧ ucLT a.1 b.1)) := by
  unfold summary
  have hgroup : (groupbyCount ucKey ucLE
      (dropDuplicatesBy usKey (rs.filter (fun r => decide (r.year = y))))).Pairwise
      (fun p q => ucLT p.1 q.1) := by
    unfold groupbyCount
    set ks := dropDuplicatesBy id
      ((dropDuplicatesBy usKey
        (rs.filter (fun r => decide (r.year = y)))).filterMap ucKey) with hks
    have hsorted : (List.insertionSort ucLE ks).Pairwise ucLE :=
      List.sorted_insertionSort ucLE ks
    have hnodup : (List.insertionSort ucLE ks).Nodup :=
      (List.perm_insertionSort ucLE ks).nodup_iff.mpr (nodup_dropDuplicatesBy_id _)
    have hstrict : (List.insertionSort ucLE ks).Pairwise ucLT :=
      (hsorted.and hnodup).imp (fun h => ucLT_of_ucLE_ne h.1 h.2)
    exact hstrict.map _ (fun a b h => h)
  exact pairwise_insertionSort_stable (fun row : (Nat × String) × Nat => row.2) countGE
    (fun a b => Iff.rfl) (fun p q => ucLT p.1 q.1) _ hgroup

/-- C10: rows whose groupby key contains a null never influence the
per-year summary or the winner table (filtering them out after the
deduplication step changes neither), while `yearly_totals` still counts
them: the single null-callsign record yields empty summary and winner
tables but a 2023 total of 1. -/
theorem C10_null_exclusion :
    (∀ (rs : List FlatRecord) (y : Int),
        summary rs y =
          List.insertionSort countGE
            (groupbyCount ucKey ucLE
              ((dropDuplicatesBy usKey (rs.filter (fun r => decide (r.year = y)))).filter
                (fun r => decide (ucKey r ≠ none)))))
    ∧ (∀ rs : List FlatRecord,
        winners rs =
          List.insertionSort rowYearGE
            (dropDuplicatesBy (fun row => row.1.1)
              (List.insertionSort ycLE
                (groupbyCount yucKey yucLE
                  ((dropDuplicatesBy usyKey rs).filter
                    (fun r => decide (yucKey r ≠ none)))))))
    ∧ (summary [nullRec] 2023 = [] ∧ winners [nullRec] = []
        ∧ yearly_totals [nullRec] = [(2023, 1)]) := by
  refine ⟨?_, ?_, by decide⟩
  · intro rs y
    unfold summary
    rw [groupbyCount_filter_ne_none]
  · intro rs
    unfold winners historical
    rw [groupbyCount_filter_ne_none]

/-! ### Characterizing the yearly totals -/

theorem tableLookup_perm {t₁ t₂ : List (Int × Nat)} (h : t₁.Perm t₂) (y : Int) :
    tableLookup t₁ y = tableLookup t₂ y := by
  unfold tableLookup
  exact ((h.filter _).map _).sum_eq

theorem filter_eq_of_nodup {κ : Type} [DecidableEq κ] :
    ∀ (ks : List κ), ks.Nodup → ∀ y : κ,
      ks.filter (fun k => decide (k = y)) = if y ∈ ks then [y] else [] := by
  intro ks
  induction ks with
  | nil =>
    intro _ y
    simp
  | cons k ks ih =>
    intro hnd y
    have hnd' := List.nodup_cons.mp hnd
    rw [List.filter_cons]
    by_cases hk : k = y
    · subst hk
      rw [if_pos (by simp)]
      have h0 : ks.filter (fun k' => decide (k' = k)) = [] := by
        rw [List.filter_eq_nil_iff]
        intro a ha
        simp only [decide_eq_true_eq]
        rintro rfl
        exact hnd'.1 ha
      rw [h0, if_pos (List.mem_cons_self _ _)]
    · rw [if_neg (by simp [hk]), ih hnd'.2 y]
      by_cases hy : y ∈ ks
      · rw [if_pos hy, if_pos (List.mem_cons_of_mem _ hy)]
      · rw [if_neg hy, if_neg ?hnmem]
        case hnmem =>
          intro h
          rcases List.mem_cons.mp h with rfl | h'
          · exact hk rfl
          · exact hy h'

theorem tableLookup_yearly_totals (rs : List FlatRecord) (y : Int) :
    tableLookup (yearly_totals rs) y =
      (dropDuplicatesBy usyKey rs).countP (fun r => decide (r.year = y)) := by
  unfold yearly_totals
  rw [tableLookup_perm (List.perm_insertionSort totYearLE _) y]
  unfold groupbyCount tableLookup
  rw [List.filter_map]
  have hpred : ∀ k ∈ List.insertionSort (fun a b : Int => a ≤ b)
      (dropDuplicatesBy id ((dropDuplicatesBy usyKey rs).filterMap (fun r => some r.year))),
      ((fun e : Int × Nat => decide (e.1 = y)) ∘
        (fun k => (k, (dropDuplicatesBy usyKey rs).countP
          (fun x => decide (some x.year = some k))))) k = decide (k = y) :=
    fun k _ => rfl
  rw [List.filter_congr hpred]
  have hnodup : (List.insertionSort (fun a b : Int => a ≤ b)
      (dropDuplicatesBy id ((dropDuplicatesBy usyKey rs).filterMap
        (fun r => some r.year)))).Nodup :=
    (List.perm_insertionSort _ _).nodup_iff.mpr (nodup_dropDuplicatesBy_id _)
  rw [filter_eq_of_nodup _ hnodup y]
  by_cases hy : y ∈ List.insertionSort (fun a b : Int => a ≤ b)
      (dropDuplicatesBy id ((dropDuplicatesBy usyKey rs).filterMap
        (fun r => some r.year)))
  · rw [if_pos hy]
    simp only [List.map_cons, List.map_nil, List.sum_cons, List.sum_nil, Nat.add_zero]
    apply List.countP_congr
    intro x _
    simp
  · rw [if_neg hy]
    simp only [List.map_nil, List.sum_nil]
    symm
    rw [List.countP_eq_zero]
    intro r hr
    simp only [decide_eq_true_eq]
    intro hyr
    apply hy
    rw [List.mem_insertionSort]
    exact mem_dropDuplicatesBy_id.mpr
      (List.mem_filterMap.mpr ⟨r, hr, by rw [hyr]⟩)

/-- C3 counterexample: for a record with a null resolved callsign the sum of
per-year summary counts (0) differs from the yearly-totals figure (1). -/
theorem C3_counterexample :
    ((summary [nullRec] 2023).map Prod.snd).sum = 0
    ∧ tableLookup (yearly_totals [nullRec]) 2023 = 1 := by
  decide

/-- C3 (amended): for record sequences in which every record has a non-null
participant id and resolved callsign, the sum of the per-year summary counts
over all participants equals the yearly-totals figure for that year. -/
theorem C3_summary_totals (rs : List FlatRecord) (hres : allResolved rs) (y : Int) :
    ((summary rs y).map Prod.snd).sum = tableLookup (yearly_totals rs) y := by
  have hLHS : ((summary rs y).map Prod.snd).sum =
      (dropDuplicatesBy usKey (rs.filter (fun r => decide (r.year = y)))).length := by
    unfold summary
    rw [((List.perm_insertionSort countGE _).map Prod.snd).sum_eq]
    unfold groupbyCount
    rw [List.map_map,
      ((List.perm_insertionSort ucLE _).map _).sum_eq]
    apply sum_countP_partition ucKey _ _ (nodup_dropDuplicatesBy_id _)
    intro x hx
    have hxrs : x ∈ rs :=
      (List.mem_filter.mp (mem_of_mem_dropDuplicatesBy usKey hx)).1
    rcases hres x hxrs with ⟨hu, hc⟩
    rcases Option.ne_none_iff_exists'.mp (ucKey_ne_none.mpr ⟨hu, hc⟩) with ⟨k, hk⟩
    exact ⟨k, mem_dropDuplicatesBy_id.mpr (List.mem_filterMap.mpr ⟨x, hx, hk⟩), hk⟩
  rw [hLHS, tableLookup_yearly_totals, List.countP_eq_length_filter]
  have hcomm := filter_dropDupsAux usyKey (fun p => decide (p.2.2 = y)) [] rs
  have hconv1 : (dropDuplicatesBy usyKey rs).filter (fun r => decide (r.year = y)) =
      (dropDupsAux usyKey [] rs).filter
        (fun x => (fun p : Option Nat × String × Int => decide (p.2.2 = y)) (usyKey x)) :=
    List.filter_congr (fun x _ => rfl)
  have hconv2 : rs.filter
      (fun x => (fun p : Option Nat × String × Int => decide (p.2.2 = y)) (usyKey x)) =
      rs.filter (fun r => decide (r.year = y)) :=
    List.filter_congr (fun x _ => rfl)
  rw [hconv1, hcomm]
  simp only [List.filter_nil]
  rw [hconv2]
  have hkeys : dropDupsAux usyKey [] (rs.filter (fun r => decide (r.year = y))) =
      dropDupsAux usKey [] (rs.filter (fun r => decide (r.year = y))) := by
    apply dropDupsAux_congr_key
    · intro a _
      simp
    · intro a ha b hb
      have hay : a.year = y := by simpa using (List.mem_filter.mp ha).2
      have hby : b.year = y := by simpa using (List.mem_filter.mp hb).2
      simp [usyKey, usKey, Prod.ext_iff, hay, hby]
  rw [hkeys]
  rfl

/-- C3 witness: on the example records (all resolved) the 2023 summary
counts sum to the 2023 yearly total. -/
theorem C3_witness :
    allResolved exampleRecords
    ∧ ((summary exampleRecords 2023).map Prod.snd).sum =
        tableLookup (yearly_totals exampleRecords) 2023 :=
  ⟨by decide, C3_summary_totals exampleRecords (by decide) 2023⟩

/-! ### The per-year summary refines its specification (C1) -/

theorem summary_keys_mem (rs : List FlatRecord) (y : Int) (hcc : callsignConsistent rs)
    (u : Nat) (c : String) :
    (u, c) ∈ (dropDuplicatesBy usKey
        (rs.filter (fun r => decide (r.year = y)))).filterMap ucKey ↔
      (u, c) ∈ (rs.filter (fun r => decide (r.year = y))).filterMap ucKey := by
  constructor
  · intro h
    rcases List.mem_filterMap.mp h with ⟨r, hr, hk⟩
    exact List.mem_filterMap.mpr ⟨r, mem_of_mem_dropDuplicatesBy usKey hr, hk⟩
  · intro h
    rcases List.mem_filterMap.mp h with ⟨r, hr, hk⟩
    rcases exists_rep_dropDuplicatesBy usKey hr with ⟨r0, hr0, hkey⟩
    rcases ucKey_eq_some.mp hk with ⟨hu, hc⟩
    have huid : r0.userId = r.userId := congrArg Prod.fst hkey
    have hcall : r0.Callsign = r.Callsign :=
      hcc r0 (List.mem_filter.mp (mem_of_mem_dropDuplicatesBy usKey hr0)).1 r
        (List.mem_filter.mp hr).1 huid
    exact List.mem_filterMap.mpr
      ⟨r0, hr0, ucKey_eq_some.mpr ⟨huid.trans hu, hcall.trans hc⟩⟩

theorem summary_count_eq (rs : List FlatRecord) (y : Int) (hcc : callsignConsistent rs)
    (u : Nat) (c : String)
    (hreal : (u, c) ∈ (rs.filter (fun r => decide (r.year = y))).filterMap ucKey) :
    (dropDuplicatesBy usKey (rs.filter (fun r => decide (r.year = y)))).countP
      (fun x => decide (ucKey x = some (u, c))) = specDistinctSummitCount rs y u c := by
  rcases List.mem_filterMap.mp hreal with ⟨rb, hrb, hkb⟩
  rcases ucKey_eq_some.mp hkb with ⟨hub, hcb⟩
  have hrbrs : rb ∈ rs := (List.mem_filter.mp hrb).1
  have h1 : (dropDuplicatesBy usKey (rs.filter (fun r => decide (r.year = y)))).countP
      (fun x => decide (ucKey x = some (u, c))) =
      (dropDuplicatesBy usKey (rs.filter (fun r => decide (r.year = y)))).countP
        (fun x => decide (x.userId = some u)) := by
    apply List.countP_congr
    intro x hx
    have hxrs : x ∈ rs :=
      (List.mem_filter.mp (mem_of_mem_dropDuplicatesBy usKey hx)).1
    simp only [decide_eq_true_eq]
    constructor
    · intro h
      exact (ucKey_eq_some.mp h).1
    · intro h
      refine ucKey_eq_some.mpr ⟨h, ?_⟩
      rw [hcc x hxrs rb hrbrs (h.trans hub.symm)]
      exact hcb
  rw [h1, List.countP_eq_length_filter]
  have hconv1 : (dropDuplicatesBy usKey (rs.filter (fun r => decide (r.year = y)))).filter
      (fun r => decide (r.userId = some u)) =
      (dropDupsAux usKey [] (rs.filter (fun r => decide (r.year = y)))).filter
        (fun x => (fun p : Option Nat × String => decide (p.1 = some u)) (usKey x)) :=
    List.filter_congr (fun x _ => rfl)
  rw [hconv1, filter_dropDupsAux usKey (fun p => decide (p.1 = some u)) []]
  simp only [List.filter_nil]
  have hconv2 : (rs.filter (fun r => decide (r.year = y))).filter
      (fun x => (fun p : Option Nat × String => decide (p.1 = some u)) (usKey x)) =
      (rs.filter (fun r => decide (r.year = y))).filter
        (fun r => decide (r.userId = some u)) :=
    List.filter_congr (fun x _ => rfl)
  rw [hconv2]
  set fyu := (rs.filter (fun r => decide (r.year = y))).filter
    (fun r => decide (r.userId = some u)) with hfyu
  have h3 : (dropDupsAux usKey [] fyu).length =
      (dropDupsAux id [] (fyu.map usKey)).length := by
    rw [← map_key_dropDupsAux]
    exact (List.length_map _ _).symm
  have h4 : fyu.map usKey = (fyu.map (fun r => r.summitCode)).map
      (fun s => ((some u : Option Nat), s)) := by
    rw [List.map_map]
    apply List.map_congr_left
    intro r hr
    have hru : r.userId = some u := by simpa using (List.mem_filter.mp hr).2
    simp [usKey, hru, Function.comp]
  have h5 : (dropDupsAux id [] ((fyu.map (fun r => r.summitCode)).map
      (fun s => ((some u : Option Nat), s)))).length =
      (dropDupsAux id [] (fyu.map (fun r => r.summitCode))).length := by
    apply length_dropDupsAux_map_inj
    · intro a b h
      exact congrArg Prod.snd h
    · intro k
      simp
  have h6 : (rs.filter (fun r => decide (r.year = y))).filter
      (fun r => decide (r.userId = some u ∧ r.Callsign = some c)) = fyu := by
    rw [hfyu]
    apply List.filter_congr
    intro x hx
    have hxrs : x ∈ rs := (List.mem_filter.mp hx).1
    apply decide_eq_decide.mpr
    constructor
    · exact fun h => h.1
    · intro h
      refine ⟨h, ?_⟩
      rw [hcc x hxrs rb hrbrs (h.trans hub.symm)]
      exact hcb
  rw [h3, h4, h5]
  unfold specDistinctSummitCount dropDuplicatesBy
  rw [h6]

/-- C1 counterexample: the summary does not equal the claimed algorithm on
every record sequence.  When one participant id carries two resolved
callsigns — reachable through the per-event `ownCallsign` fallback of the
enrichment — the deduplication on `(userId, summitCode)` silently drops the
later callsign's row before the groupby on `(userId, Callsign)`: for the
records (5, "A", GW/NW-005) and (5, "B", GW/NW-005) in 2023, participant
(5, "B") has one distinct summit by the claimed grouping, yet no row of the
summary. -/
theorem C1_counterexample :
    summary [incRecA, incRecB] 2023 = [((5, "A"), 1)]
    ∧ (5, "B") ∈ specSummaryParticipants [incRecA, incRecB] 2023
    ∧ specDistinctSummitCount [incRecA, incRecB] 2023 5 "B" = 1
    ∧ ((5, "B"), 1) ∉ summary [incRecA, incRecB] 2023 := by
  decide

/-- C1 (amended): for record sequences in which each participant identifier
carries one resolved callsign, the per-year participant summary equals the
claimed algorithm: its rows are exactly the year's participants paired with
their distinct-summit counts, each participant appears once, rows are
sorted by count descending, and the worked example yields count 1 for P1
and count 1 for P2. -/
theorem C1_summary_refinement (rs : List FlatRecord) (y : Int)
    (hcc : callsignConsistent rs) :
    (∀ u c n, ((u, c), n) ∈ summary rs y ↔
        ((u, c) ∈ specSummaryParticipants rs y
          ∧ n = specDistinctSummitCount rs y u c))
    ∧ ((summary rs y).map Prod.fst).Nodup
    ∧ (summary rs y).Pairwise countGE
    ∧ (((1, "P1"), 1) ∈ summary exampleRecords 2023
        ∧ ((2, "P2"), 1) ∈ summary exampleRecords 2023) := by
  refine ⟨?_, ?_, ?_, by decide⟩
  · intro u c n
    unfold summary
    rw [List.mem_insertionSort, mem_groupbyCount]
    unfold specSummaryParticipants
    rw [mem_dropDuplicatesBy_id]
    constructor
    · rintro ⟨hmem, rfl⟩
      have hmem' := (summary_keys_mem rs y hcc u c).mp hmem
      exact ⟨hmem', summary_count_eq rs y hcc u c hmem'⟩
    · rintro ⟨hmem, rfl⟩
      exact ⟨(summary_keys_mem rs y hcc u c).mpr hmem,
        (summary_count_eq rs y hcc u c hmem).symm⟩
  · unfold summary
    exact ((List.perm_insertionSort countGE _).map Prod.fst).nodup_iff.mpr
      (nodup_keys_groupbyCount _ _ _)
  · exact List.sorted_insertionSort countGE _

/-- C1 witness: the example records are consistently resolved and the 2023
summary assigns count 1 to P1 and to P2. -/
theorem C1_witness :
    callsignConsistent exampleRecords
    ∧ (((1, "P1"), 1) ∈ summary exampleRecords 2023
        ∧ ((2, "P2"), 1) ∈ summary exampleRecords 2023) :=
  ⟨by decide, (C1_summary_refinement exampleRecords 2023 (by decide)).2.2.2⟩

/-! ### The winner table (C2) -/

theorem mem_map_key_dropDuplicatesBy {α κ : Type} (key : α → κ) [DecidableEq κ]
    {l : List α} {k : κ} :
    k ∈ (dropDuplicatesBy key l).map key ↔ k ∈ l.map key := by
  unfold dropDuplicatesBy
  rw [mem_map_key_dropDupsAux]
  simp

theorem nodup_map_key_dropDuplicatesBy {α κ : Type} (key : α → κ) [DecidableEq κ]
    (l : List α) : ((dropDuplicatesBy key l).map key).Nodup :=
  nodup_map_key_dropDupsAux key [] l

/-- C2 counterexample: the year 2023 occurs in an activation date of the
single null-callsign record, yet the winner table is empty, so the claim
"one winner row for every year that occurs in some activation date" fails. -/
theorem C2_counterexample :
    (2023 : Int) ∈ [nullRec].map FlatRecord.year ∧ winners [nullRec] = [] := by
  decide

/-- C2 (amended): for consistently-resolved records, the winner table has
pairwise-distinct years; its years are exactly those occurring in records
with non-null userId and Callsign; and each winner's count is greater than
or equal to every per-(year, participant) deduplicated count (`historical`
row) of its year. -/
theorem C2_winner_per_year (rs : List FlatRecord) (hcc : callsignConsistent rs) :
    ((winners rs).map (fun w => w.1.1)).Nodup
    ∧ (∀ y : Int, y ∈ (winners rs).map (fun w => w.1.1) ↔
        ∃ r ∈ rs, r.year = y ∧ r.userId ≠ none ∧ r.Callsign ≠ none)
    ∧ (∀ w ∈ winners rs, ∀ row ∈ historical rs, row.1.1 = w.1.1 → row.2 ≤ w.2) := by
  refine ⟨?_, ?_, ?_⟩
  · unfold winners
    exact ((List.perm_insertionSort rowYearGE _).map (fun w => w.1.1)).nodup_iff.mpr
      (nodup_map_key_dropDuplicatesBy _ _)
  · intro y
    unfold winners
    rw [((List.perm_insertionSort rowYearGE _).map (fun w => w.1.1)).mem_iff,
      mem_map_key_dropDuplicatesBy,
      ((List.perm_insertionSort ycLE (historical rs)).map
        (fun w : (Int × Nat × String) × Nat => w.1.1)).mem_iff]
    unfold historical groupbyCount
    rw [List.map_map]
    constructor
    · intro hy
      rcases List.mem_map.mp hy with ⟨k, hk, hky⟩
      rw [List.mem_insertionSort, mem_dropDuplicatesBy_id] at hk
      rcases List.mem_filterMap.mp hk with ⟨r, hr, hrk⟩
      obtain ⟨yy, u, c⟩ := k
      rcases yucKey_eq_some.mp hrk with ⟨hyr, hur, hcr⟩
      have hyy : yy = y := hky
      exact ⟨r, mem_of_mem_dropDuplicatesBy usyKey hr,
        hyr.trans hyy, by simp [hur], by simp [hcr]⟩
    · rintro ⟨r, hr, hyear, hu, hc⟩
      rcases Option.ne_none_iff_exists'.mp hu with ⟨uv, huv⟩
      rcases Option.ne_none_iff_exists'.mp hc with ⟨cv, hcv⟩
      rcases exists_rep_dropDuplicatesBy usyKey hr with ⟨r0, hr0, hk0⟩
      have h0u : r0.userId = r.userId := congrArg Prod.fst hk0
      have h0y : r0.year = r.year :=
        congrArg (fun p : Option Nat × String × Int => p.2.2) hk0
      have h0c : r0.Callsign = r.Callsign :=
        hcc r0 (mem_of_mem_dropDuplicatesBy usyKey hr0) r hr h0u
      have hk : yucKey r0 = some (y, uv, cv) :=
        yucKey_eq_some.mpr ⟨h0y.trans hyear, h0u.trans huv, h0c.trans hcv⟩
      apply List.mem_map.mpr
      refine ⟨(y, uv, cv), ?_, rfl⟩
      rw [List.mem_insertionSort, mem_dropDuplicatesBy_id]
      exact List.mem_filterMap.mpr ⟨r0, hr0, hk⟩
  · intro w hw row hrow hyear
    unfold winners at hw
    rw [List.mem_insertionSort] at hw
    have hrow1 : row ∈ List.insertionSort ycLE (historical rs) :=
      (List.mem_insertionSort ycLE).mpr hrow
    exact dropDupsAux_first_max (fun row : (Int × Nat × String) × Nat => row.1.1)
      (fun row => row.2) (List.insertionSort ycLE (historical rs)) []
      (List.sorted_insertionSort ycLE (historical rs)) w hw row hrow1 hyear

/-- C2 witness: the example records are consistently resolved; their winner
table has distinct years, 2023 is one of them, and the 2023 winner's count
dominates the historical counts of 2023. -/
theorem C2_witness :
    callsignConsistent exampleRecords
    ∧ ((winners exampleRecords).map (fun w => w.1.1)).Nodup
    ∧ ((2023 : Int) ∈ (winners exampleRecords).map (fun w => w.1.1) ↔
        ∃ r ∈ exampleRecords, r.year = 2023 ∧ r.userId ≠ none ∧ r.Callsign ≠ none) :=
  ⟨by decide, (C2_winner_per_year exampleRecords (by decide)).1,
    (C2_winner_per_year exampleRecords (by decide)).2.1 2023⟩

/-! ### Round trip of the flattening (C7) -/

theorem flatMap_map {α β γ : Type} (f : α → β) (g : β → List γ) (l : List α) :
    (l.map f).flatMap g = l.flatMap (fun x => g (f x)) := by
  induction l with
  | nil => rfl
  | cons x xs ih => simp [List.flatMap_cons, ih]

/-- All summit entries of a snapshot, in traversal order. -/
def allSummitEntries (data : Snapshot) : List SummitEntry :=
  data.regions.flatMap (fun rp => rp.2.summits.map Prod.snd)

theorem build_eq_flatMap (data : Snapshot) :
    build_activation_dataframe data =
      (allSummitEntries data).flatMap (fun se => se.activations.map (recordOf se)) := by
  unfold build_activation_dataframe allSummitEntries
  rw [List.flatMap_assoc]
  have h : ∀ rp : String × RegionEntry,
      (rp.2.summits.map Prod.snd).flatMap
        (fun se => se.activations.map (recordOf se)) =
      rp.2.summits.flatMap (fun sp => sp.2.activations.map (recordOf sp.2)) :=
    fun rp => flatMap_map Prod.snd _ rp.2.summits
  simp only [h]

theorem flatMap_filter_block {σ γ κ : Type} [DecidableEq κ]
    (g : σ → List γ) (ck : σ → κ) (keyOf : γ → κ)
    (hkey : ∀ s, ∀ x ∈ g s, keyOf x = ck s) :
    ∀ (l : List σ), (l.map ck).Nodup → ∀ s ∈ l,
      (l.flatMap g).filter (fun x => decide (keyOf x = ck s)) = g s := by
  intro l
  induction l with
  | nil =>
    intro _ s hs
    simp at hs
  | cons t ts ih =>
    intro hnd s hs
    simp only [List.map_cons, List.nodup_cons] at hnd
    rw [List.flatMap_cons, List.filter_append]
    rcases List.mem_cons.mp hs with rfl | hs'
    · have h1 : (g s).filter (fun x => decide (keyOf x = ck s)) = g s := by
        rw [List.filter_eq_self]
        intro a ha
        simp [hkey s a ha]
      have h2 : (ts.flatMap g).filter (fun x => decide (keyOf x = ck s)) = [] := by
        rw [List.filter_eq_nil_iff]
        intro a ha
        rcases List.mem_flatMap.mp ha with ⟨t', ht', hat'⟩
        simp only [decide_eq_true_eq]
        rw [hkey t' a hat']
        intro hcontra
        exact hnd.1 (hcontra ▸ List.mem_map_of_mem ck ht')
      rw [h1, h2, List.append_nil]
    · have h1 : (g t).filter (fun x => decide (keyOf x = ck s)) = [] := by
        rw [List.filter_eq_nil_iff]
        intro a ha
        simp only [decide_eq_true_eq]
        rw [hkey t a ha]
        intro hcontra
        exact hnd.1 (hcontra ▸ List.mem_map_of_mem ck hs')
      rw [h1, ih hnd.2 s hs', List.nil_append]

/-- C7: in a valid snapshot (globally distinct summit codes), selecting the
flat records of any summit recovers that summit's original activation list,
modulo the fields the flat projection carries per activation
(participant id, resolved callsign, date). -/
theorem C7_round_trip (data : Snapshot)
    (hnd : ((allSummitEntries data).map (fun se => se.summit.summitCode)).Nodup)
    (rc : String) (re : RegionEntry) (hre : (rc, re) ∈ data.regions)
    (sc : String) (se : SummitEntry) (hse : (sc, se) ∈ re.summits) :
    ((build_activation_dataframe data).filter
        (fun r => decide (r.summitCode = se.summit.summitCode))).map
      (fun r => (r.userId, r.Callsign, r.activationDate)) =
      se.activations.map (fun a => (a.userId, a.Callsign, a.activationDate)) := by
  have hmem : se ∈ allSummitEntries data := by
    unfold allSummitEntries
    exact List.mem_flatMap.mpr ⟨(rc, re), hre, List.mem_map_of_mem Prod.snd hse⟩
  rw [build_eq_flatMap,
    flatMap_filter_block (fun se => se.activations.map (recordOf se))
      (fun se => se.summit.summitCode) (fun r => r.summitCode) ?hkey
      (allSummitEntries data) hnd se hmem,
    List.map_map]
  case hkey =>
    intro s x hx
    rcases List.mem_map.mp hx with ⟨a, _, rfl⟩
    rfl
  rfl

/-- C7 witness: the round trip on the worked example snapshot recovers
summit GW/NW-001's activation list. -/
theorem C7_witness :
    (((allSummitEntries exampleSnapshot).map (fun se => se.summit.summitCode)).Nodup
      ∧ ("R1", exampleRegionEntry) ∈ exampleSnapshot.regions
      ∧ ("GW/NW-001", exampleSummitEntry) ∈ exampleRegionEntry.summits)
    ∧ ((build_activation_dataframe exampleSnapshot).filter
        (fun r => decide (r.summitCode = exampleSummitEntry.summit.summitCode))).map
        (fun r => (r.userId, r.Callsign, r.activationDate)) =
      exampleSummitEntry.activations.map
        (fun a => (a.userId, a.Callsign, a.activationDate)) :=
  ⟨⟨by decide, by decide, by decide⟩,
    C7_round_trip exampleSnapshot (by decide) "R1" exampleRegionEntry (by decide)
      "GW/NW-001" exampleSummitEntry (by decide)⟩

/-! ### Error handling of the fetch run (C8) -/

theorem foldRegions_ok (lookup : Nat → Option String)
    (regionDetails : String → Except String RegionDetail)
    (activationsOf : String → Except String (List RawActivation))
    (dets : RegionStub → RegionDetail) :
    ∀ (stubs : List RegionStub),
      (∀ s ∈ stubs, regionDetails s.regionCode = Except.ok (dets s)) →
      ∀ acc, stubs.foldlM (regionStep lookup regionDetails activationsOf) acc =
        Except.ok (acc ++ stubs.map (fun s =>
          (s.regionCode, regionEntryFor lookup activationsOf (dets s)))) := by
  intro stubs
  induction stubs with
  | nil =>
    intro _ acc
    simp only [List.foldlM, List.map_nil, List.append_nil]
    rfl
  | cons s ss ih =>
    intro hok acc
    have hs := hok s (List.mem_cons_self s ss)
    have hstep : regionStep lookup regionDetails activationsOf acc s =
        Except.ok (acc ++ [(s.regionCode, regionEntryFor lookup activationsOf (dets s))]) := by
      unfold regionStep
      rw [hs]
      rfl
    rw [List.foldlM_cons, hstep]
    have hbind : (Except.ok (acc ++ [(s.regionCode,
          regionEntryFor lookup activationsOf (dets s))]) >>=
        fun b' => List.foldlM (regionStep lookup regionDetails activationsOf) b' ss) =
        List.foldlM (regionStep lookup regionDetails activationsOf)
          (acc ++ [(s.regionCode, regionEntryFor lookup activationsOf (dets s))]) ss := rfl
    rw [hbind, ih (fun s' hs' => hok s' (List.mem_cons_of_mem s hs'))]
    simp

theorem foldRegions_err (lookup : Nat → Option String)
    (regionDetails : String → Except String RegionDetail)
    (activationsOf : String → Except String (List RawActivation))
    (dets : RegionStub → RegionDetail) (stub : RegionStub)
    (post : List RegionStub) (e : String)
    (herr : regionDetails stub.regionCode = Except.error e) :
    ∀ (pre : List RegionStub),
      (∀ s ∈ pre, regionDetails s.regionCode = Except.ok (dets s)) →
      ∀ acc, (pre ++ stub :: post).foldlM
        (regionStep lookup regionDetails activationsOf) acc = Except.error e := by
  intro pre
  induction pre with
  | nil =>
    intro _ acc
    rw [List.nil_append, List.foldlM_cons]
    have hstep : regionStep lookup regionDetails activationsOf acc stub =
        Except.error e := by
      unfold regionStep
      rw [herr]
      rfl
    rw [hstep]
    rfl
  | cons s ss ih =>
    intro hok acc
    have hs := hok s (List.mem_cons_self s ss)
    have hstep : regionStep lookup regionDetails activationsOf acc s =
        Except.ok (acc ++ [(s.regionCode, regionEntryFor lookup activationsOf (dets s))]) := by
      unfold regionStep
      rw [hs]
      rfl
    rw [List.cons_append, List.foldlM_cons, hstep]
    have hbind : (Except.ok (acc ++ [(s.regionCode,
          regionEntryFor lookup activationsOf (dets s))]) >>=
        fun b' => List.foldlM (regionStep lookup regionDetails activationsOf) b'
          (ss ++ stub :: post)) =
        List.foldlM (regionStep lookup regionDetails activationsOf)
          (acc ++ [(s.regionCode, regionEntryFor lookup activationsOf (dets s))])
          (ss ++ stub :: post) := rfl
    rw [hbind]
    exact ih (fun s' hs' => hok s' (List.mem_cons_of_mem s hs')) _

/-- C8: a roll or region-list failure aborts the run with that error; a
region-detail failure (after any prefix of successful regions) aborts the
run; when every region detail succeeds the run completes and produces one
entry per region, where each summit's activations are the enriched fetch
result, and a summit whose fetch failed gets an empty activation list while
the run continues. -/
theorem C8_partial_failure (rollData : List RollEntry) (stubs : List RegionStub)
    (dets : RegionStub → RegionDetail)
    (regionDetails : String → Except String RegionDetail)
    (activationsOf : String → Except String (List RawActivation))
    (now : String) :
    (∀ (e : String) (regionsResult : Except String (List RegionStub)),
        mainFetch (Except.error e) regionsResult regionDetails activationsOf now =
          Except.error e)
    ∧ (∀ e : String,
        mainFetch (Except.ok rollData) (Except.error e) regionDetails activationsOf now =
          Except.error e)
    ∧ (∀ (pre : List RegionStub) (stub : RegionStub) (post : List RegionStub) (e : String),
        stubs = pre ++ stub :: post →
        (∀ s ∈ pre, regionDetails s.regionCode = Except.ok (dets s)) →
        regionDetails stub.regionCode = Except.error e →
        mainFetch (Except.ok rollData) (Except.ok stubs) regionDetails activationsOf now =
          Except.error e)
    ∧ ((∀ s ∈ stubs, regionDetails s.regionCode = Except.ok (dets s)) →
        mainFetch (Except.ok rollData) (Except.ok stubs) regionDetails activationsOf now =
          Except.ok
            { generated_at := now, association := "GW",
              regions := stubs.map (fun s => (s.regionCode,
                regionEntryFor (fetch_activator_roll rollData) activationsOf (dets s))) })
    ∧ (∀ (lookup : Nat → Option String) (e : String) (summit : Summit),
        activationsOf summit.summitCode = Except.error e →
          (summitEntryFor lookup activationsOf summit).2.activations = []) := by
  refine ⟨?_, ?_, ?_, ?_, ?_⟩
  · intro e regionsResult
    rfl
  · intro e
    rfl
  · rintro pre stub post e rfl hok herr
    show ((pre ++ stub :: post).foldlM
          (regionStep (fetch_activator_roll rollData) regionDetails activationsOf) []
        >>= fun entries =>
          (pure { generated_at := now, association := "GW", regions := entries } :
            Except String Snapshot)) = Except.error e
    rw [foldRegions_err (fetch_activator_roll rollData) regionDetails activationsOf
      dets stub post e herr pre hok []]
    rfl
  · intro hok
    show (stubs.foldlM
          (regionStep (fetch_activator_roll rollData) regionDetails activationsOf) []
        >>= fun entries =>
          (pure { generated_at := now, association := "GW", regions := entries } :
            Except String Snapshot)) = _
    rw [foldRegions_ok (fetch_activator_roll rollData) regionDetails activationsOf
      dets stubs hok [], List.nil_append]
    rfl
  · intro lookup e summit herr
    unfold summitEntryFor
    rw [herr]
    rfl

/-- Roll data for the C8 witness. -/
def cRoll : List RollEntry := [⟨some 555, some "MW0XYZ"⟩]

/-- The single region stub for the C8 witness. -/
def cStubs : List RegionStub := [⟨"NW"⟩]

/-- Two summits for the C8 witness; the second one's fetch will fail. -/
def cSummitA : Summit :=
  { summitCode := "GW/NW-001", name := "A", points := 1, latitude := 52, longitude := -3 }

/-- The summit whose activation fetch fails in the C8 witness. -/
def cSummitB : Summit :=
  { summitCode := "GW/NW-099", name := "B", points := 2, latitude := 52, longitude := -3 }

/-- Region detail for the C8 witness. -/
def cDetail : RegionDetail := { region := { summits := 2 }, summits := [cSummitA, cSummitB] }

/-- Region-detail oracle for the C8 witness. -/
def cRegionDetails : String → Except String RegionDetail :=
  fun c => if c = "NW" then Except.ok cDetail else Except.error "region failure"

/-- Activation oracle for the C8 witness: GW/NW-001 succeeds, everything
else (in particular GW/NW-099) raises a transport error. -/
def cActs : String → Except String (List RawActivation) :=
  fun c => if c = "GW/NW-001"
    then Except.ok
      [{ userId := some 555, ownCallsign := some "MW0XYZ/P",
         activationDate := "2023-05-01" }]
    else Except.error "transport error"

/-- C8 witness: with the concrete oracles the run completes, producing the
snapshot in which GW/NW-099 has an empty activation list, and a region-list
failure aborts the run. -/
theorem C8_witness :
    mainFetch (Except.ok cRoll) (Except.ok cStubs) cRegionDetails cActs "T" =
      Except.ok
        { generated_at := "T", association := "GW",
          regions := cStubs.map (fun s => (s.regionCode,
            regionEntryFor (fetch_activator_roll cRoll) cActs cDetail)) }
    ∧ (summitEntryFor (fetch_activator_roll cRoll) cActs cSummitB).2.activations = []
    ∧ mainFetch (Except.ok cRoll) (Except.error "fatal") cRegionDetails cActs "T" =
        Except.error "fatal" := by
  refine ⟨?_, ?_, ?_⟩
  · exact (C8_partial_failure cRoll cStubs (fun _ => cDetail) cRegionDetails cActs
      "T").2.2.2.1 (by intro s hs; rcases List.mem_singleton.mp hs with rfl; rfl)
  · exact (C8_partial_failure cRoll cStubs (fun _ => cDetail) cRegionDetails cActs
      "T").2.2.2.2 (fetch_activator_roll cRoll) "transport error" cSummitB
      (by simp [cActs, cSummitB])
  · exact (C8_partial_failure cRoll cStubs (fun _ => cDetail) cRegionDetails cActs
      "T").2.1 "fatal"

/-- C5 witness: a participant absent from the roll who self-reported no
callsign resolves to null, via `C5_null_resolution`. -/
theorem C5_witness :
    resolveCallsign (fetch_activator_roll []) (some 1) none = none :=
  (C5_null_resolution [] (some 1) none).mpr ⟨rfl, rfl⟩
